import Mathlib

/-
Verification of the gedcom2gtr converter (gedcom2gtr.py): a shallow
embedding of its data model, date formatter, record adapter, graph
builder, generation counters, dynamic-limit rebalancing and the
recursive sandclock tree serializer, together with proofs of the
specification's claims about them.

Modelling conventions:
- Python strings are `String`; the GTR output uses literal braces,
  written with the escapes "\x7b" (left) and "\x7d" (right).
- Python object graphs (Person/Family cycles) are modelled as an arena:
  a `Graph` maps identifier strings to `Person`/`Family` records, and
  links are stored as identifier strings.  Object identity corresponds
  to arena keys; `load_gedcom` indexes every object by its id.
- Unbounded recursion over the (possibly cyclic) object graph is
  modelled with an explicit fuel argument; Python would not terminate
  on cyclic data, and on acyclic data any fuel above the graph depth
  gives the Python result.
- Fallible code (KeyError, assert) is modelled with `Except String`.
-/

/-- Left brace character of the GTR markup, as a string. -/
def lb : String := "\x7b"

/-- Right brace character of the GTR markup, as a string. -/
def rb : String := "\x7d"

/-- `_MONTH_NAME_TO_NUMBER`: maps GEDCOM month names to their number. -/
def MONTH_NAME_TO_NUMBER : List (String × Nat) :=
  [("JAN", 1), ("FEB", 2), ("MAR", 3), ("APR", 4), ("MAY", 5), ("JUN", 6),
   ("JUL", 7), ("AUG", 8), ("SEP", 9), ("OCT", 10), ("NOV", 11), ("DEC", 12)]

/-- Lookup in `_MONTH_NAME_TO_NUMBER` (Python raises KeyError on a name
not in the table; the claims only concern names in the table, so the
total variant returns 0 there). -/
def month_number (m : String) : Nat :=
  ((MONTH_NAME_TO_NUMBER.find? (fun kv => kv.1 == m)).map (fun kv => kv.2)).getD 0

/-- Python's `f'{n:02d}'` for a natural number: zero-padded to two digits. -/
def pad2 (n : Nat) : String :=
  if n < 10 then "0" ++ toString n else toString n

/-- A ged4py `CalendarDate`: year, optional month (GEDCOM month name;
Python truthiness makes `None` and `''` both "no month"), optional day
(`None` and `0` both "no day"), and a BC flag. -/
structure CalendarDate where
  year : Int
  month : Option String
  day : Option Nat
  bc : Bool
deriving DecidableEq, Repr

/-- Truthiness of an optional string (Python: `None` and `''` are falsy). -/
def str_truthy (o : Option String) : Bool :=
  match o with
  | none => false
  | some s => !(s == "")

/-- Truthiness of an optional day number (Python: `None` and `0` are falsy). -/
def day_truthy (o : Option Nat) : Bool :=
  match o with
  | none => false
  | some n => !(n == 0)

/-- A ged4py `DateValue`: one of the date-qualifier variants dispatched
by the `DateValueVisitor`. -/
inductive DateValue where
  | simple (date : CalendarDate)
  | period (date1 date2 : CalendarDate)
  | range (date1 date2 : CalendarDate)
  | fromDate (date : CalendarDate)
  | after (date : CalendarDate)
  | toDate (date : CalendarDate)
  | before (date : CalendarDate)
  | about (date : CalendarDate)
  | calculated (date : CalendarDate)
  | estimated (date : CalendarDate)
  | interpreted (date : CalendarDate) (phrase : String)
  | phrase (p : String)
deriving DecidableEq, Repr

/-- Python's `'-'.join(parts)`. -/
def join_dash : List String → String
  | [] => ""
  | [x] => x
  | x :: y :: xs => x ++ "-" ++ join_dash (y :: xs)

/-- The calendar token resolved by `_format_date`: `AD`/`BC`, with a
`ca` uncertainty marker prefixed. -/
def era_token (uncertain bc : Bool) : String :=
  (if uncertain then "ca" else "") ++ (if bc then "BC" else "AD")

/-- `GtrDateFormatter._format_date`: calendar token (`AD`/`BC`, with a
`ca` uncertainty marker), then `YYYY[-MM[-DD]]`. -/
def format_date (date : CalendarDate) (uncertain : Bool) : String :=
  let calendar := if date.bc then "BC" else "AD"
  let calendar := if uncertain then "ca" ++ calendar else calendar
  let parts := [toString date.year] ++
    (if str_truthy date.month then
       [pad2 (month_number (date.month.getD ""))] ++
         (if day_truthy date.day then [pad2 (date.day.getD 0)] else [])
     else [])
  "(" ++ calendar ++ ")" ++ join_dash parts

/-- `GtrDateFormatter.format`: visitor dispatch over the date-qualifier
variants (`visitRange = visitPeriod`, `visitAfter = visitFrom`,
`visitBefore = visitTo`, and About/Calculated/Estimated/Interpreted all
share `visitAbout`; `visitPhrase` returns the empty string). -/
def GtrDateFormatter.format : DateValue → String
  | .simple d => format_date d false
  | .period d1 d2 => format_date d1 false ++ "/" ++ format_date d2 false
  | .range d1 d2 => format_date d1 false ++ "/" ++ format_date d2 false
  | .fromDate d => format_date d false ++ "/"
  | .after d => format_date d false ++ "/"
  | .toDate d => "/" ++ format_date d false
  | .before d => "/" ++ format_date d false
  | .about d => format_date d true
  | .calculated d => format_date d true
  | .estimated d => format_date d true
  | .interpreted d _ => format_date d true
  | .phrase _ => ""

/-- The `Event` dataclass: optional date value and optional place. -/
structure Event where
  date : Option DateValue
  place : Option String
deriving DecidableEq, Repr

/-- `Event.__bool__`: true iff the date or the place is set (a `DateValue`
object is always truthy; a place string is falsy when empty). -/
def Event.bool (e : Event) : Bool :=
  e.date.isSome || str_truthy e.place

/-- `Event.to_gtr`: a (modifier, value) pair; modifier `-` and value
`{date}` when the place is absent, empty modifier and `{date}{place}`
otherwise. -/
def Event.to_gtr (e : Event) : String × String :=
  let date := match e.date with
    | some d => GtrDateFormatter.format d
    | none => ""
  if str_truthy e.place then
    ("", lb ++ date ++ rb ++ lb ++ e.place.getD "" ++ rb)
  else
    ("-", lb ++ date ++ rb)

/-- The `Person` dataclass.  `parent_families` and `child_family` store
the ids of the linked `Family` objects (links resolve through the arena). -/
structure Person where
  id : String
  gtr_fields : List (String × String)
  parent_families : List String
  child_family : Option String
deriving DecidableEq, Repr

/-- The `Family` dataclass.  `parents` and `children` store the ids of
the linked `Person` objects. -/
structure Family where
  id : String
  parents : List String
  children : List String
  marriage : Event
deriving DecidableEq, Repr

/-- `Person.to_gtr`: `<node_type>[id=<id>]{key=value,...}` with the id
clause only when requested. -/
def Person.to_gtr (p : Person) (node_type : String) (include_id : Bool) : String :=
  node_type ++ (if include_id then "[id=" ++ p.id ++ "]" else "") ++
    lb ++ String.join (p.gtr_fields.map (fun kv => kv.1 ++ "=" ++ kv.2 ++ ",")) ++ rb

/-- `Family.make_gtr_options`: `id=<id>` plus, when the marriage event is
truthy, a `family database={marriage<mod>=<value>}` option. -/
def Family.make_gtr_options (f : Family) : String :=
  "id=" ++ f.id ++
    (if f.marriage.bool then
       "," ++ "family database=" ++ lb ++ "marriage" ++ f.marriage.to_gtr.1 ++ "=" ++
         f.marriage.to_gtr.2 ++ rb
     else "")

/-- `xref_id.replace('@', '')`: delete every `@` character. -/
def strip_at (s : String) : String :=
  ⟨s.data.filter (fun c => !(c == '@'))⟩

/-- A parsed event sub-record (`BIRT`/`DEAT`/`MARR`): its `DATE` and
`PLAC` sub-tag values. -/
structure EventRecord where
  date : Option DateValue
  plac : Option String
deriving DecidableEq, Repr

/-- `Event.from_record`: both fields are `None` when the record is absent. -/
def Event.from_record (r : Option EventRecord) : Event :=
  ⟨r.bind (fun er => er.date), r.bind (fun er => er.plac)⟩

/-- A parsed `INDI` record: xref id, `NAME` sub-records as
(type, first-two-value-components) pairs in source order, `BIRT`/`DEAT`
sub-records, and `SEX`/`OCCU` sub-tag values. -/
structure IndiRecord where
  xref_id : String
  names : List (Option String × (String × String))
  birt : Option EventRecord
  deat : Option EventRecord
  sex : Option String
  occu : Option String
deriving DecidableEq, Repr

/-- Python dict comprehension over the name records followed by `.get`:
a later record of the same type overwrites an earlier one, so `.get`
returns the value of the last matching record. -/
def py_dict_get {α : Type} (l : List (Option String × α)) (k : Option String) : Option α :=
  ((l.reverse.find? (fun kv => kv.1 == k)).map (fun kv => kv.2))

/-- The name-selection loop of `Person.from_record`: the first present
role among `maiden`, `birth`, unlabeled, `married` wins (a present
(given, surname) pair is a nonempty tuple, hence truthy in Python). -/
def select_name (names : List (Option String × (String × String))) :
    Option (String × String) :=
  match py_dict_get names (some "maiden") with
  | some v => some v
  | none =>
    match py_dict_get names (some "birth") with
    | some v => some v
    | none =>
      match py_dict_get names none with
      | some v => some v
      | none => py_dict_get names (some "married")

/-- `name_part or "?"`: the literal `?` placeholder for an absent
(empty) name part. -/
def or_question (s : String) : String :=
  if s == "" then "?" else s

/-- The rendered name field value `{\pref{given} \surn{surname}}`. -/
def name_value (v : String × String) : String :=
  lb ++ "\\pref" ++ lb ++ or_question v.1 ++ rb ++ " \\surn" ++ lb ++
    or_question v.2 ++ rb ++ rb

/-- `Person.from_record`: builds the ordered `gtr_fields` mapping (name,
birth, death, sex, profession, in insertion order), strips `@` from the
xref id, and initializes empty relationship links. -/
def Person.from_record (r : IndiRecord) : Person :=
  let name_fields : List (String × String) :=
    match select_name r.names with
    | some v => [("name", name_value v)]
    | none => []
  let birth_event := Event.from_record r.birt
  let birth_fields : List (String × String) :=
    if birth_event.bool then [("birth" ++ birth_event.to_gtr.1, birth_event.to_gtr.2)] else []
  let death_event := Event.from_record r.deat
  let death_fields : List (String × String) :=
    if death_event.bool then [("death" ++ death_event.to_gtr.1, death_event.to_gtr.2)] else []
  let sex_fields : List (String × String) :=
    if str_truthy r.sex then
      [("sex", if r.sex.getD "" == "F" then lb ++ "female" ++ rb else lb ++ "male" ++ rb)]
    else []
  let occu_fields : List (String × String) :=
    if str_truthy r.occu then [("profession", lb ++ r.occu.getD "" ++ rb)] else []
  ⟨strip_at r.xref_id, name_fields ++ birth_fields ++ death_fields ++ sex_fields ++ occu_fields,
    [], none⟩

/-- The loaded object graph: every `Person` and `Family` object addressed
by its id (arena modelling of Python object references; dereferencing a
link always succeeds, as for a pointer). -/
structure Graph where
  persons : String → Person
  families : String → Family

/-- `get_parent_family`: the first entry of `parent_families`, or none
(the multiple-families warning has no effect on the returned value). -/
def get_parent_family (g : Graph) (p : String) : Option String :=
  (g.persons p).parent_families.head?

/-- Python's `==` on two `Person` dataclass instances: structural equality
of the field tuple.  In the arena, links are id keys, and nested objects
compare by identity first, so this is equality of the stored records. -/
def person_eq_py (g : Graph) (a b : String) : Bool :=
  decide (g.persons a = g.persons b)

/-- The partner listing of `_child_node`: every parent of the family that
is not (`!=`) the current person. -/
def other_parents (g : Graph) (famId p : String) : List String :=
  (g.families famId).parents.filter (fun q => !(person_eq_py g q p))

/-- The sibling listing of `_parent_node_body`: every child of the family
that is not (`!=`) the current person. -/
def sibling_children (g : Graph) (famId p : String) : List String :=
  (g.families famId).children.filter (fun c => !(person_eq_py g c p))

/-- The budget decrement `max(-1, max_generations - 1)` applied at each
generation crossing. -/
def dec_budget (b : Int) : Int :=
  max (-1) (b - 1)

/-- `_child_node`: the descendant recursion.  A leaf `c` node when there
is no resolvable parent family or the budget is 0; otherwise a `child`
branch with the person as `g` node, the other parents as `p` nodes, and
a recursive call per child with decremented budget. -/
def child_node (g : Graph) (fuel : Nat) (p : String) (max_generations : Int) : String :=
  match fuel with
  | 0 => ""
  | f + 1 =>
    match get_parent_family g p with
    | none => (g.persons p).to_gtr "c" true
    | some famId =>
      if max_generations = 0 then (g.persons p).to_gtr "c" true
      else
        "child[" ++ (g.families famId).make_gtr_options ++ "]" ++ lb ++
          (g.persons p).to_gtr "g" true ++
          String.join ((other_parents g famId p).map (fun q => (g.persons q).to_gtr "p" true)) ++
          String.join ((g.families famId).children.map
            (fun c => child_node g f c (dec_budget max_generations))) ++
          rb

mutual

/-- `_parent_node`: the ancestor recursion.  A leaf `p` node when there
is no child family or the budget is 0; otherwise a `parent` branch with
the person as `g` node and the ancestor body with decremented budget. -/
def parent_node (g : Graph) (fuel : Nat) (p : String)
    (include_siblings include_ancestor_siblings : Bool) (max_generations : Int) : String :=
  match fuel with
  | 0 => ""
  | f + 1 =>
    match (g.persons p).child_family with
    | none => (g.persons p).to_gtr "p" true
    | some cfId =>
      if max_generations = 0 then (g.persons p).to_gtr "p" true
      else
        "parent[" ++ (g.families cfId).make_gtr_options ++ "]" ++ lb ++
          (g.persons p).to_gtr "g" true ++
          parent_node_body g f p include_siblings include_ancestor_siblings
            (dec_budget max_generations) ++
          rb

/-- `_parent_node_body`: empty when there is no child family or the
budget is 0; otherwise one `parent_node` per parent of the child family
(the ancestor-sibling flag collapsing into both flags), followed, when
siblings are included, by the other children as leaf `c` nodes. -/
def parent_node_body (g : Graph) (fuel : Nat) (p : String)
    (include_siblings include_ancestor_siblings : Bool) (max_generations : Int) : String :=
  match fuel with
  | 0 => ""
  | f + 1 =>
    match (g.persons p).child_family with
    | none => ""
    | some cfId =>
      if max_generations = 0 then ""
      else
        String.join ((g.families cfId).parents.map
          (fun q => parent_node g f q include_ancestor_siblings include_ancestor_siblings
            max_generations)) ++
          (if include_siblings then
             String.join ((sibling_children g cfId p).map
               (fun c => (g.persons c).to_gtr "c" true))
           else "")

end

/-- The bracketed options of the `sandclock` node: the child family's
options when a child family exists and its option string is nonempty. -/
def sandclock_options (g : Graph) (p : String) : String :=
  let options := match (g.persons p).child_family with
    | some cf => (g.families cf).make_gtr_options
    | none => ""
  if options == "" then "" else "[" ++ options ++ "]"

/-- `sandclock`: the outer node around the descendant subtree (with the
descendant budget) and the ancestor body (with the ancestor budget). -/
def sandclock (g : Graph) (fuel : Nat) (p : String)
    (include_siblings include_ancestor_siblings : Bool)
    (max_ancestor_generations max_descendant_generations : Int) : String :=
  "sandclock" ++ sandclock_options g p ++ lb ++
    child_node g fuel p max_descendant_generations ++
    parent_node_body g fuel p include_siblings include_ancestor_siblings
      max_ancestor_generations ++
    rb

/-- Number of generation crossings performed below the focal person by
`child_node` under the given budget (the recursion structure of
`child_node`, with the string assembly replaced by a depth count). -/
def child_node_depth (g : Graph) (fuel : Nat) (p : String) (max_generations : Int) : Nat :=
  match fuel with
  | 0 => 0
  | f + 1 =>
    match get_parent_family g p with
    | none => 0
    | some famId =>
      if max_generations = 0 then 0
      else
        (((g.families famId).children.map
          (fun c => child_node_depth g f c (dec_budget max_generations) + 1)).foldr max 0)

/-- Depth of the descendant data actually traversed by `child_node`:
generations reachable through `get_parent_family` (first parent family)
and its children, with no budget. -/
def child_walk (g : Graph) (fuel : Nat) (p : String) : Nat :=
  match fuel with
  | 0 => 0
  | f + 1 =>
    match get_parent_family g p with
    | none => 0
    | some famId =>
      (((g.families famId).children.map (fun c => child_walk g f c + 1)).foldr max 0)

mutual

/-- Number of generation crossings performed above the given person by
`parent_node` under the given budget. -/
def parent_node_depth (g : Graph) (fuel : Nat) (q : String) (max_generations : Int) : Nat :=
  match fuel with
  | 0 => 0
  | f + 1 =>
    match (g.persons q).child_family with
    | none => 0
    | some _ =>
      if max_generations = 0 then 0
      else parent_body_depth g f q (dec_budget max_generations)

/-- Number of generation crossings performed above the given person by
`parent_node_body` under the given budget. -/
def parent_body_depth (g : Graph) (fuel : Nat) (p : String) (max_generations : Int) : Nat :=
  match fuel with
  | 0 => 0
  | f + 1 =>
    match (g.persons p).child_family with
    | none => 0
    | some cfId =>
      if max_generations = 0 then 0
      else
        (((g.families cfId).parents.map
          (fun q => parent_node_depth g f q max_generations + 1)).foldr max 0)

end

mutual

/-- Depth of the ancestor data traversed above the given person by
`parent_node` (child-family parents, recursively), with no budget. -/
def anc_walk_node (g : Graph) (fuel : Nat) (q : String) : Nat :=
  match fuel with
  | 0 => 0
  | f + 1 =>
    match (g.persons q).child_family with
    | none => 0
    | some _ => anc_walk_body g f q

/-- Depth of the ancestor data traversed above the given person by
`parent_node_body`, with no budget. -/
def anc_walk_body (g : Graph) (fuel : Nat) (p : String) : Nat :=
  match fuel with
  | 0 => 0
  | f + 1 =>
    match (g.persons p).child_family with
    | none => 0
    | some cfId =>
      (((g.families cfId).parents.map (fun q => anc_walk_node g f q + 1)).foldr max 0)

end

/-- `Person.count_ancestor_generations`: `num = -1`, maximized over the
child family's parents when a child family exists, then `num + 1`. -/
def count_ancestor_generations (g : Graph) (fuel : Nat) (p : String) : Int :=
  match fuel with
  | 0 => 0
  | f + 1 =>
    (match (g.persons p).child_family with
     | none => (-1 : Int)
     | some cf =>
       (g.families cf).parents.foldl
         (fun n q => max n (count_ancestor_generations g f q)) (-1)) + 1

/-- `Person.count_descendant_generations`: `num = -1`, maximized over
every child of every parent family, then `num + 1`. -/
def count_descendant_generations (g : Graph) (fuel : Nat) (p : String) : Int :=
  match fuel with
  | 0 => 0
  | f + 1 =>
    ((g.persons p).parent_families.foldl
      (fun n fid =>
        (g.families fid).children.foldl
          (fun m c => max m (count_descendant_generations g f c)) n)
      (-1)) + 1

/-- The dynamic-generation-limits block of `main`: when the limit is
broken in exactly one direction, the other direction's unused budget
(`remaining`, truthy iff nonzero) is added to the broken direction's
limit; otherwise both limits are unchanged. -/
def adjust_limits (num_anc num_desc max_anc max_desc : Int) : Int × Int :=
  if (num_anc > max_anc) ↔ (num_desc > max_desc) then
    (max_anc, max_desc)
  else if num_anc > max_anc then
    let remaining := max_desc - num_desc
    if remaining ≠ 0 then (max_anc + remaining, max_desc) else (max_anc, max_desc)
  else
    let remaining := max_anc - num_anc
    if remaining ≠ 0 then (max_anc, max_desc + remaining) else (max_anc, max_desc)

/-- The tail of `main` after the focal person is resolved: an optional
single pre-pass adjusting the limits, then one `sandclock` call. -/
def main_serialize (g : Graph) (fuel : Nat) (p : String)
    (siblings ancestor_siblings dynamic_generation_limits : Bool)
    (max_ancestor_generations max_descendant_generations : Int) : String :=
  let limits :=
    if dynamic_generation_limits then
      adjust_limits (count_ancestor_generations g fuel p)
        (count_descendant_generations g fuel p)
        max_ancestor_generations max_descendant_generations
    else (max_ancestor_generations, max_descendant_generations)
  sandclock g fuel p siblings ancestor_siblings limits.1 limits.2

/-- Python dict lookup modelled on an association list (keys are unique
in every dict built here, so first match is the match). -/
def dict_get {α : Type} (d : List (String × α)) (k : String) : Option α :=
  ((d.find? (fun kv => kv.1 == k)).map (fun kv => kv.2))

/-- Python dict assignment: replaces the value in place when the key is
present, appends the binding otherwise (insertion order preserved). -/
def dict_set {α : Type} (d : List (String × α)) (k : String) (v : α) : List (String × α) :=
  if (d.find? (fun kv => kv.1 == k)).isSome then
    d.map (fun kv => if kv.1 == k then (k, v) else kv)
  else
    d ++ [(k, v)]

/-- A parsed `FAM` record: xref id, `HUSB`/`WIFE` pointers (the xref of
the pointed individual), `CHIL` pointers in source order, and the `MARR`
sub-record. -/
structure FamRecord where
  xref_id : String
  husb : Option String
  wife : Option String
  chil : List String
  marr : Option EventRecord
deriving DecidableEq, Repr

/-- `id_to_person[indi.xref_id.replace('@', '')]`: dict indexing raises
KeyError when the stripped id is absent. -/
def resolve_xref (persons : List (String × Person)) (x : String) : Except String String :=
  match dict_get persons (strip_at x) with
  | some _ => .ok (strip_at x)
  | none => .error ("KeyError: " ++ strip_at x)

/-- A resolution loop of pass 2: each xref in turn through the person
index, in source order (used for the `HUSB`/`WIFE` pair and for the
`CHIL` list comprehension). -/
def resolve_refs (persons : List (String × Person)) : List String → Except String (List String)
  | [] => .ok []
  | x :: xs => do
    let y ← resolve_xref persons x
    let ys ← resolve_refs persons xs
    return y :: ys

/-- The child-linking loop of pass 2: for each child in turn, assert
that no `child_family` is set yet (an already-set link is a fatal
AssertionError), then set it to this family. -/
def link_children (famId : String) :
    List (String × Person) → List String → Except String (List (String × Person))
  | persons, [] => .ok persons
  | persons, c :: cs =>
    match dict_get persons c with
    | none => .error ("KeyError: " ++ c)
    | some p =>
      match p.child_family with
      | some _ => .error "AssertionError: child already has a child family"
      | none => link_children famId (dict_set persons c { p with child_family := some famId }) cs

/-- Pass 2 for one `FAM` record: resolve parents and children, build the
`Family`, register it, append it to each parent's `parent_families`,
then link the children. -/
def process_fam (st : List (String × Person) × List (String × Family)) (f : FamRecord) :
    Except String (List (String × Person) × List (String × Family)) := do
  let persons := st.1
  let parents ← resolve_refs persons ([f.husb, f.wife].filterMap id)
  let children ← resolve_refs persons f.chil
  let famId := strip_at f.xref_id
  let fam : Family := ⟨famId, parents, children, Event.from_record f.marr⟩
  let famdict := dict_set st.2 famId fam
  let persons := parents.foldl
    (fun d pid =>
      match dict_get d pid with
      | some p => dict_set d pid { p with parent_families := p.parent_families ++ [famId] }
      | none => d)
    persons
  let persons ← link_children famId persons children
  return (persons, famdict)

/-- The pass-2 loop: `process_fam` over each `FAM` record in turn. -/
def process_fams :
    List (String × Person) × List (String × Family) → List FamRecord →
      Except String (List (String × Person) × List (String × Family))
  | st, [] => .ok st
  | st, f :: fs => do
    let st1 ← process_fam st f
    process_fams st1 fs

/-- `load_gedcom`: pass 1 creates every `Person` indexed by stripped id;
pass 2 runs `process_fam` over the `FAM` records. -/
def load_gedcom (indis : List IndiRecord) (fams : List FamRecord) :
    Except String (List (String × Person) × List (String × Family)) :=
  let persons := indis.foldl
    (fun d r => let p := Person.from_record r; dict_set d p.id p) []
  process_fams (persons, []) fams

/-- The focal-person lookup of `main`:
`persons[xref_id.replace('@', '')]`, `None` modelling the KeyError. -/
def focal_lookup (persons : List (String × Person)) (xref_id : String) : Option Person :=
  dict_get persons (strip_at xref_id)

/-- Total occurrence count of a stripped child id over the `CHIL` lists
of all `FAM` records. -/
def chil_count (fams : List FamRecord) (cid : String) : Nat :=
  (fams.flatMap (fun f => f.chil.map strip_at)).count cid

/-- Whether the dict entry for an id already carries a `child_family`. -/
def has_cf (d : List (String × Person)) (cid : String) : Bool :=
  match dict_get d cid with
  | some p => p.child_family.isSome
  | none => false

/-- The default `Person` used to make arena dereferencing total. -/
def default_person : Person := ⟨"", [], [], none⟩

/-- The default `Family` used to make arena dereferencing total. -/
def default_family : Family := ⟨"", [], [], ⟨none, none⟩⟩

/-- The object graph reachable from a loaded dataset: dereferencing an
id resolves through the dicts built by `load_gedcom` (every stored link
id is a dict key, so the defaults are never reached on loaded data). -/
def graph_of (ps : List (String × Person)) (fs : List (String × Family)) : Graph :=
  ⟨fun id => (dict_get ps id).getD default_person,
   fun id => (dict_get fs id).getD default_family⟩

/-- A `Person` record with given id and links and no rendered fields. -/
def mk_person (id : String) (pfs : List String) (cf : Option String) : Person :=
  ⟨id, [], pfs, cf⟩

/-- A childless marriage-less `Family` record. -/
def mk_family (id : String) (parents children : List String) : Family :=
  ⟨id, parents, children, ⟨none, none⟩⟩

/-- A two-generation witness graph: person `A` has child family `FA`
(parent `B`) and parent family `FD` (child `C`). -/
def w_graph : Graph :=
  ⟨fun i =>
    if i = "A" then mk_person "A" ["FD"] (some "FA")
    else if i = "B" then mk_person "B" [] none
    else if i = "C" then mk_person "C" [] none
    else mk_person i [] none,
   fun j =>
    if j = "FA" then mk_family "FA" ["B"] ["A"]
    else mk_family "FD" ["A"] ["C"]⟩

/-- A graph in which the two distinct person objects at keys `x` and `y`
carry fully identical records (same id, fields and links) and are both
children of family `F`. -/
def c3_graph : Graph :=
  ⟨fun _ => mk_person "I" [] (some "F"),
   fun _ => mk_family "F" [] ["x", "y"]⟩

/-- An `INDI` record with no `NAME` sub-records at all. -/
def c6_record : IndiRecord :=
  ⟨"@I1@", [], none, none, none, none⟩

/-- Witness individuals for the loader claims. -/
def w_indis : List IndiRecord :=
  [⟨"@I1@", [(none, ("A", "B"))], none, none, none, none⟩,
   ⟨"@I2@", [], none, none, none, none⟩,
   ⟨"@I3@", [], none, none, none, none⟩]

/-- Witness family records for the loader claims. -/
def w_fams : List FamRecord :=
  [⟨"@F1@", some "@I1@", none, ["@I2@"], none⟩]


lemma foldr_max_base (b a : Int) (l : List Int) :
    l.foldr max (max a b) = max b (l.foldr max a) := by
  induction l with
  | nil => exact max_comm a b
  | cons x t ih => simp only [List.foldr_cons, ih, max_left_comm]

lemma foldl_max_eq_foldr {α : Type} (f : α → Int) (a : Int) (l : List α) :
    l.foldl (fun n x => max n (f x)) a = (l.map f).foldr max a := by
  induction l generalizing a with
  | nil => rfl
  | cons x t ih =>
    simp only [List.foldl_cons, List.map_cons, List.foldr_cons, ih]
    exact foldr_max_base (f x) a (t.map f)

lemma le_foldr_max (a : Int) (l : List Int) : a ≤ l.foldr max a := by
  induction l with
  | nil => exact le_refl a
  | cons x t ih => exact le_trans ih (le_max_right x _)

lemma foldr_max_comm (a : Int) (l1 l2 : List Int) :
    l1.foldr max (l2.foldr max a) = l2.foldr max (l1.foldr max a) := by
  induction l1 with
  | nil => rfl
  | cons x t ih =>
    simp only [List.foldr_cons, ih]
    conv_rhs => rw [max_comm x (t.foldr max a)]
    exact (foldr_max_base x (t.foldr max a) l2).symm

lemma foldl_nested_max {α β : Type} (inner : α → List β) (f : β → Int) (a : Int)
    (l : List α) :
    l.foldl (fun n x => (inner x).foldl (fun m c => max m (f c)) n) a =
      ((l.flatMap inner).map f).foldr max a := by
  induction l generalizing a with
  | nil => rfl
  | cons x t ih =>
    simp only [List.foldl_cons, List.flatMap_cons, List.map_append, List.foldr_append, ih]
    rw [foldl_max_eq_foldr]
    exact foldr_max_comm a ((t.flatMap inner).map f) ((inner x).map f)


/-- C4: `count_ancestor_generations` is 0 for a person with no child
family, `count_descendant_generations` is 0 for a person with no parent
families; otherwise the ancestor count is `max(-1, max over the child
family's parents of their count) + 1` (so a child family with zero
parents still yields 0), and the descendant count is the symmetric
maximum over every child of every parent family, plus one. -/
theorem C4_generation_counters (g : Graph) (fuel : Nat) (p : String) :
    ((g.persons p).child_family = none → count_ancestor_generations g (fuel + 1) p = 0)
    ∧ ((g.persons p).parent_families = [] →
        count_descendant_generations g (fuel + 1) p = 0)
    ∧ (∀ cf, (g.persons p).child_family = some cf →
        count_ancestor_generations g (fuel + 1) p =
          max (-1) (((g.families cf).parents.map
            (fun q => count_ancestor_generations g fuel q)).foldr max (-1)) + 1)
    ∧ (∀ cf, (g.persons p).child_family = some cf → (g.families cf).parents = [] →
        count_ancestor_generations g (fuel + 1) p = 0)
    ∧ (count_descendant_generations g (fuel + 1) p =
        max (-1) ((((g.persons p).parent_families.flatMap
          (fun fid => (g.families fid).children)).map
            (fun c => count_descendant_generations g fuel c)).foldr max (-1)) + 1) := by
  refine ⟨?_, ?_, ?_, ?_, ?_⟩
  · intro h
    simp only [count_ancestor_generations, h]
    decide
  · intro h
    simp only [count_descendant_generations, h, List.foldl_nil]
    decide
  · intro cf h
    simp only [count_ancestor_generations, h]
    rw [foldl_max_eq_foldr]
    rw [max_eq_right (le_foldr_max (-1) _)]
  · intro cf h hp
    simp only [count_ancestor_generations, h, hp, List.map_nil, List.foldl_nil]
    decide
  · simp only [count_descendant_generations]
    rw [foldl_nested_max]
    rw [max_eq_right (le_foldr_max (-1) _)]

/-- C2: with dynamic generation limits the adjustment is a single
pre-pass: if the limit is broken in exactly one direction, the unused
slack `other_limit - other_actual` of the unbroken direction is added
to the broken direction's limit when positive and nothing changes when
it is not; if the limit is broken in neither or both directions, both
limits are unchanged; serialization then runs once on the adjusted
limits (the recursion itself never adjusts). -/
theorem C2_dynamic_limit_rebalancing (num_anc num_desc max_anc max_desc : Int) :
    (((num_anc > max_anc) ↔ (num_desc > max_desc)) →
      adjust_limits num_anc num_desc max_anc max_desc = (max_anc, max_desc))
    ∧ (num_anc > max_anc → num_desc ≤ max_desc → 0 < max_desc - num_desc →
        adjust_limits num_anc num_desc max_anc max_desc =
          (max_anc + (max_desc - num_desc), max_desc))
    ∧ (num_anc > max_anc → num_desc ≤ max_desc → max_desc - num_desc ≤ 0 →
        adjust_limits num_anc num_desc max_anc max_desc = (max_anc, max_desc))
    ∧ (num_desc > max_desc → num_anc ≤ max_anc → 0 < max_anc - num_anc →
        adjust_limits num_anc num_desc max_anc max_desc =
          (max_anc, max_desc + (max_anc - num_anc)))
    ∧ (num_desc > max_desc → num_anc ≤ max_anc → max_anc - num_anc ≤ 0 →
        adjust_limits num_anc num_desc max_anc max_desc = (max_anc, max_desc))
    ∧ (∀ g fuel p s t,
        main_serialize g fuel p s t true max_anc max_desc =
          sandclock g fuel p s t
            (adjust_limits (count_ancestor_generations g fuel p)
              (count_descendant_generations g fuel p) max_anc max_desc).1
            (adjust_limits (count_ancestor_generations g fuel p)
              (count_descendant_generations g fuel p) max_anc max_desc).2)
    ∧ (∀ g fuel p s t,
        main_serialize g fuel p s t false max_anc max_desc =
          sandclock g fuel p s t max_anc max_desc) := by
  refine ⟨?_, ?_, ?_, ?_, ?_, ?_, ?_⟩
  · intro h
    unfold adjust_limits
    rw [if_pos h]
  · intro h1 h2 h3
    unfold adjust_limits
    rw [if_neg (by omega), if_pos h1, if_pos (by omega)]
  · intro h1 h2 h3
    unfold adjust_limits
    rw [if_neg (by omega), if_pos h1, if_neg (by omega)]
  · intro h1 h2 h3
    unfold adjust_limits
    rw [if_neg (by omega), if_neg (by omega), if_pos (by omega)]
  · intro h1 h2 h3
    unfold adjust_limits
    rw [if_neg (by omega), if_neg (by omega), if_neg (by omega)]
  · intro g fuel p s t
    rfl
  · intro g fuel p s t
    rfl

/-- C8: a direction with configured limit `-1` is always classified as
exceeding its limit (actual counts are nonnegative), so when the other
direction's actual count is strictly below its finite limit the positive
slack is added to `-1` and the previously unlimited direction ends up
with the finite limit `slack - 1`. -/
theorem C8_rebalancing_caps_unlimited (num_anc num_desc max_desc : Int)
    (ha : 0 ≤ num_anc) (hd : 0 ≤ num_desc) (hlt : num_desc < max_desc) :
    num_anc > -1
    ∧ adjust_limits num_anc num_desc (-1) max_desc =
        ((max_desc - num_desc) - 1, max_desc)
    ∧ 0 ≤ (max_desc - num_desc) - 1 := by
  refine ⟨by omega, ?_, by omega⟩
  unfold adjust_limits
  rw [if_neg (by omega), if_pos (by omega), if_pos (by omega),
    show (-1 : Int) + (max_desc - num_desc) = max_desc - num_desc - 1 by omega]

lemma find?_cons_pair {α : Type} (q : String × α → Bool) (a : String × α)
    (l : List (String × α)) :
    List.find? q (a :: l) = if q a then some a else List.find? q l := by
  by_cases h : q a
  · rw [List.find?_cons_of_pos l h, if_pos h]
  · rw [List.find?_cons_of_neg l h, if_neg h]

lemma find_map_subst {α : Type} (d : List (String × α)) (k : String) (v : α)
    (h : (d.find? (fun kv => kv.1 == k)).isSome = true) :
    (d.map (fun kv => if kv.1 == k then (k, v) else kv)).find? (fun kv => kv.1 == k) =
      some (k, v) := by
  induction d with
  | nil => simp at h
  | cons kv t ih =>
    rw [find?_cons_pair] at h
    cases hk : (kv.1 == k) with
    | true =>
      simp only [List.map_cons, if_pos hk]
      rw [find?_cons_pair, if_pos (by simp)]
    | false =>
      simp only [List.map_cons, hk, if_neg (by simp : ¬(false = true))]
      rw [find?_cons_pair, if_neg (by simp [hk])]
      rw [hk, if_neg (by simp)] at h
      exact ih h

lemma find_append_absent {α : Type} (d : List (String × α)) (k : String) (v : α)
    (h : d.find? (fun kv => kv.1 == k) = none) :
    (d ++ [(k, v)]).find? (fun kv => kv.1 == k) = some (k, v) := by
  rw [List.find?_append, h]
  rw [find?_cons_pair, if_pos (by simp)]
  rfl

lemma dict_get_set_self {α : Type} (d : List (String × α)) (k : String) (v : α) :
    dict_get (dict_set d k v) k = some v := by
  unfold dict_get dict_set
  by_cases h : (d.find? (fun kv => kv.1 == k)).isSome = true
  · rw [if_pos h, find_map_subst d k v h]
    rfl
  · rw [if_neg h, find_append_absent d k v ?_]
    · rfl
    · cases he : d.find? (fun kv => kv.1 == k) with
      | none => rfl
      | some x => rw [he] at h; simp at h

lemma find_map_subst_ne {α : Type} (d : List (String × α)) (k k' : String) (v : α)
    (h : k' ≠ k) :
    (d.map (fun kv => if kv.1 == k then (k, v) else kv)).find? (fun kv => kv.1 == k') =
      d.find? (fun kv => kv.1 == k') := by
  induction d with
  | nil => rfl
  | cons kv t ih =>
    cases hk : (kv.1 == k) with
    | true =>
      have hkv : kv.1 = k := by rwa [beq_iff_eq] at hk
      simp only [List.map_cons, if_pos hk]
      rw [find?_cons_pair, find?_cons_pair, if_neg (by simp [Ne.symm h]),
        if_neg (by simp [hkv, Ne.symm h]), ih]
    | false =>
      simp only [List.map_cons, hk, if_neg (by simp : ¬(false = true))]
      rw [find?_cons_pair, find?_cons_pair]
      cases hc : (kv.1 == k') with
      | true => rw [if_pos (by simp [hc]), if_pos (by simp [hc])]
      | false => rw [if_neg (by simp [hc]), if_neg (by simp [hc]), ih]

lemma dict_get_set_ne {α : Type} (d : List (String × α)) (k k' : String) (v : α)
    (h : k' ≠ k) :
    dict_get (dict_set d k v) k' = dict_get d k' := by
  unfold dict_get dict_set
  by_cases hp : (d.find? (fun kv => kv.1 == k)).isSome = true
  · rw [if_pos hp, find_map_subst_ne d k k' v h]
  · rw [if_neg hp, List.find?_append]
    rw [find?_cons_pair, if_neg (by simp [Ne.symm h]), List.find?_nil]
    cases d.find? (fun kv => kv.1 == k') <;> rfl

/-- C10: person and family identifiers are the source xrefs with every
`@` character deleted, and the focal lookup strips the requested
identifier the same way, so any two requested identifiers that differ
only in the placement or number of `@` characters resolve alike. -/
theorem C10_at_stripping (r : IndiRecord) (ps : List (String × Person)) (s1 s2 : String)
    (h : strip_at s1 = strip_at s2)
    (st : List (String × Person) × List (String × Family)) (f : FamRecord)
    (st' : List (String × Person) × List (String × Family))
    (hpf : process_fam st f = .ok st') :
    (Person.from_record r).id = strip_at r.xref_id
    ∧ strip_at r.xref_id = ⟨r.xref_id.data.filter (fun c => !(c == '@'))⟩
    ∧ focal_lookup ps s1 = focal_lookup ps s2
    ∧ (∀ t1 t2 : String, strip_at t1 = strip_at t2 →
        focal_lookup ps t1 = focal_lookup ps t2)
    ∧ focal_lookup ps "@I1@" = focal_lookup ps "I1"
    ∧ ∃ fam, dict_get st'.2 (strip_at f.xref_id) = some fam ∧
        fam.id = strip_at f.xref_id := by
  have hgen : ∀ t1 t2 : String, strip_at t1 = strip_at t2 →
      focal_lookup ps t1 = focal_lookup ps t2 := by
    intro t1 t2 ht
    unfold focal_lookup
    rw [ht]
  refine ⟨rfl, rfl, hgen s1 s2 h, hgen, hgen _ _ (by decide), ?_⟩
  unfold process_fam at hpf
  simp only [bind, Except.bind] at hpf
  cases hp : resolve_refs st.1 ([f.husb, f.wife].filterMap id) with
  | error e => rw [hp] at hpf; exact Except.noConfusion hpf
  | ok parents =>
    rw [hp] at hpf
    simp only [] at hpf
    cases hc : resolve_refs st.1 f.chil with
    | error e => rw [hc] at hpf; exact Except.noConfusion hpf
    | ok children =>
      rw [hc] at hpf
      simp only [] at hpf
      cases hl : link_children (strip_at f.xref_id)
          (parents.foldl
            (fun d pid =>
              match dict_get d pid with
              | some p =>
                dict_set d pid
                  { p with parent_families := p.parent_families ++ [strip_at f.xref_id] }
              | none => d)
            st.1)
          children with
      | error e => rw [hl] at hpf; exact Except.noConfusion hpf
      | ok persons2 =>
        rw [hl] at hpf
        simp only [pure, Except.pure, Except.ok.injEq] at hpf
        refine ⟨⟨strip_at f.xref_id, parents, children, Event.from_record f.marr⟩, ?_, rfl⟩
        rw [← hpf]
        exact dict_get_set_self st.2 (strip_at f.xref_id) _

/-- C9: an event whose date is a phrase-only value and whose place is
absent is still truthy (the date object is set), so the record adapter
emits a `birth-` field with value `{}` (empty braces, the phrase-only
date formatting to the empty string), and the family formatter emits a
`marriage-={}` option. -/
theorem C9_phrase_only_event (ph : String) (r : IndiRecord) (fd : Family)
    (hb : r.birt = some ⟨some (.phrase ph), none⟩)
    (hm : fd.marriage = ⟨some (.phrase ph), none⟩) :
    Event.bool ⟨some (.phrase ph), none⟩ = true
    ∧ Event.to_gtr ⟨some (.phrase ph), none⟩ = ("-", lb ++ rb)
    ∧ ("birth-", lb ++ rb) ∈ (Person.from_record r).gtr_fields
    ∧ fd.make_gtr_options =
        "id=" ++ fd.id ++ ",family database=" ++ lb ++ "marriage-=" ++ lb ++ rb ++ rb := by
  have hgtr : Event.to_gtr ⟨some (.phrase ph), none⟩ = ("-", lb ++ rb) := by
    unfold Event.to_gtr
    simp only [GtrDateFormatter.format, str_truthy, if_neg (by simp : ¬(false = true))]
    rw [String.append_empty lb]
  refine ⟨rfl, hgtr, ?_, ?_⟩
  · unfold Person.from_record
    rw [hb]
    have hev : Event.from_record (some ⟨some (.phrase ph), none⟩) =
        (⟨some (.phrase ph), none⟩ : Event) := rfl
    rw [hev]
    simp only [Event.bool, Option.isSome_some, Bool.true_or, if_pos, hgtr]
    refine List.mem_append_left _ (List.mem_append_left _ (List.mem_append_left _
      (List.mem_append_right _ ?_)))
    exact List.mem_singleton.2 rfl
  · unfold Family.make_gtr_options
    rw [hm, hgtr]
    simp only [Event.bool, Option.isSome_some, Bool.true_or, if_pos]
    simp only [String.append_assoc]
    congr 1

/-- C6 counterexample: a person record with no name records at all is
adapted with NO name field (the selection loop finds no role, so the
`name` key is never inserted) — the claim's "a rendered name field is
always produced ... never omitted" fails on such a record. -/
theorem C6_counterexample :
    (Person.from_record c6_record).gtr_fields = []
    ∧ (∀ v, ("name", v) ∉ (Person.from_record c6_record).gtr_fields) := by
  refine ⟨by decide, ?_⟩
  intro v hv
  rw [show (Person.from_record c6_record).gtr_fields = [] from by decide] at hv
  exact List.not_mem_nil _ hv

/-- C6 amended: whenever the name-selection loop finds a name (a name
record under one of the roles maiden/birth/default/married), a name
field is produced whose given and surname parts are replaced by a
literal `?` exactly when they are absent (empty); in particular a name
with both parts absent renders `?` for both, and the produced value is
never the empty string.  A record with no such name record gets no name
field at all. -/
theorem C6_amended (r : IndiRecord) (v : String × String) (a b : String)
    (hv : select_name r.names = some v) (ha : a ≠ "") (hb : b ≠ "") :
    ("name", name_value v) ∈ (Person.from_record r).gtr_fields
    ∧ name_value ("", "") =
        lb ++ "\\pref" ++ lb ++ "?" ++ rb ++ " \\surn" ++ lb ++ "?" ++ rb ++ rb
    ∧ name_value (a, b) =
        lb ++ "\\pref" ++ lb ++ a ++ rb ++ " \\surn" ++ lb ++ b ++ rb ++ rb
    ∧ name_value ("", b) =
        lb ++ "\\pref" ++ lb ++ "?" ++ rb ++ " \\surn" ++ lb ++ b ++ rb ++ rb
    ∧ name_value (a, "") =
        lb ++ "\\pref" ++ lb ++ a ++ rb ++ " \\surn" ++ lb ++ "?" ++ rb ++ rb
    ∧ name_value v ≠ "" := by
  have hq : ∀ s : String, s ≠ "" → or_question s = s := by
    intro s hs
    unfold or_question
    rw [if_neg (by simpa using hs)]
  refine ⟨?_, rfl, ?_, ?_, ?_, ?_⟩
  · unfold Person.from_record
    rw [hv]
    exact List.mem_append_left _ (List.mem_append_left _ (List.mem_append_left _
      (List.mem_append_left _ (List.mem_singleton.2 rfl))))
  · unfold name_value
    rw [hq a ha, hq b hb]
  · unfold name_value
    rw [hq b hb]
    rfl
  · unfold name_value
    rw [hq a ha]
    rfl
  · unfold name_value
    intro hcon
    have : (lb ++ "\\pref" ++ lb ++ or_question v.1 ++ rb ++ " \\surn" ++ lb ++
        or_question v.2 ++ rb ++ rb).length = 0 := by rw [hcon]; rfl
    simp [String.length_append] at this
    have hlb : lb.length = 0 := this.1.1.1.1.1.1.1.1
    exact absurd hlb (by decide)

/-- C3 counterexample: the serializer's self-exclusion uses the Python
dataclass `!=`, which is structural equality.  In `c3_graph` the keys
`x` and `y` are distinct person objects with identical records — same
rendered fields, same rendered output — yet `y` IS excluded from the
sibling listing of focal `x`, contradicting the claim that a distinct
person with identical rendered fields is never excluded under identity
equality. -/
theorem C3_counterexample :
    "y" ∈ (c3_graph.families "F").children
    ∧ "y" ≠ "x"
    ∧ (c3_graph.persons "y").gtr_fields = (c3_graph.persons "x").gtr_fields
    ∧ (c3_graph.persons "y").to_gtr "c" true = (c3_graph.persons "x").to_gtr "c" true
    ∧ "y" ∉ sibling_children c3_graph "F" "x"
    ∧ sibling_children c3_graph "F" "x" = [] := by
  refine ⟨by decide, by decide, by decide, by decide, ?_, by decide⟩
  intro hmem
  rw [show sibling_children c3_graph "F" "x" = [] from by decide] at hmem
  exact List.not_mem_nil _ hmem

/-- C3 amended: the exclusion compares dataclass records structurally;
since this comparison is reflexive, the current person never appears in
their own sibling listing (nor in the partner listing), and a distinct
person whose stored record differs — in particular any person with a
different id, which the loader guarantees for distinct objects — is not
excluded, even with identical rendered `gtr_fields`. -/
theorem C3_amended (g : Graph) (famId p c q : String)
    (hc : c ∈ (g.families famId).children) (hq : q ∈ (g.families famId).parents)
    (hidc : (g.persons c).id ≠ (g.persons p).id)
    (hidq : (g.persons q).id ≠ (g.persons p).id) :
    p ∉ sibling_children g famId p
    ∧ p ∉ other_parents g famId p
    ∧ c ∈ sibling_children g famId p
    ∧ q ∈ other_parents g famId p := by
  have hrefl : person_eq_py g p p = true := by
    unfold person_eq_py
    exact decide_eq_true rfl
  refine ⟨?_, ?_, ?_, ?_⟩
  · intro hmem
    have := (List.mem_filter.1 hmem).2
    rw [hrefl] at this
    exact Bool.noConfusion this
  · intro hmem
    have := (List.mem_filter.1 hmem).2
    rw [hrefl] at this
    exact Bool.noConfusion this
  · refine List.mem_filter.2 ⟨hc, ?_⟩
    have : person_eq_py g c p = false := by
      unfold person_eq_py
      exact decide_eq_false (fun he => hidc (congrArg Person.id he))
    rw [this]
    rfl
  · refine List.mem_filter.2 ⟨hq, ?_⟩
    have : person_eq_py g q p = false := by
      unfold person_eq_py
      exact decide_eq_false (fun he => hidq (congrArg Person.id he))
    rw [this]
    rfl

/-- C7: the date formatter maps Simple to `(CAL)YYYY[-MM[-DD]]` with
two-digit month and day and an unpadded year; Period and Range to
`(CAL)date1/(CAL)date2`; From and After to `(CAL)date/`; To and Before
to `/(CAL)date`; About, Calculated, Estimated and Interpreted to the
Simple form with a `ca`-prefixed calendar token (Interpreted's phrase
dropped); Phrase-only to the empty string; and the calendar token is
always exactly `AD`/`BC`, optionally `ca`-prefixed, never a bare sign. -/
theorem C7_date_formatter (mname : String) (dd : Nat) (y : Int) (u bc : Bool)
    (d d1 d2 : CalendarDate) (ph ph' s : String)
    (hm : mname ≠ "") (hd : dd ≠ 0) :
    format_date ⟨y, some mname, some dd, bc⟩ u =
        "(" ++ era_token u bc ++ ")" ++
          (toString y ++ "-" ++ (pad2 (month_number mname) ++ "-" ++ pad2 dd))
    ∧ format_date ⟨y, some mname, none, bc⟩ u =
        "(" ++ era_token u bc ++ ")" ++ (toString y ++ "-" ++ pad2 (month_number mname))
    ∧ format_date ⟨y, none, some dd, bc⟩ u = "(" ++ era_token u bc ++ ")" ++ toString y
    ∧ GtrDateFormatter.format (.simple d) = format_date d false
    ∧ GtrDateFormatter.format (.period d1 d2) =
        format_date d1 false ++ "/" ++ format_date d2 false
    ∧ GtrDateFormatter.format (.range d1 d2) =
        format_date d1 false ++ "/" ++ format_date d2 false
    ∧ GtrDateFormatter.format (.fromDate d) = format_date d false ++ "/"
    ∧ GtrDateFormatter.format (.after d) = format_date d false ++ "/"
    ∧ GtrDateFormatter.format (.toDate d) = "/" ++ format_date d false
    ∧ GtrDateFormatter.format (.before d) = "/" ++ format_date d false
    ∧ GtrDateFormatter.format (.about d) = format_date d true
    ∧ GtrDateFormatter.format (.calculated d) = format_date d true
    ∧ GtrDateFormatter.format (.estimated d) = format_date d true
    ∧ GtrDateFormatter.format (.interpreted d ph) = format_date d true
    ∧ GtrDateFormatter.format (.interpreted d ph) =
        GtrDateFormatter.format (.interpreted d ph')
    ∧ GtrDateFormatter.format (.phrase s) = ""
    ∧ (era_token u bc = "AD" ∨ era_token u bc = "BC" ∨ era_token u bc = "caAD" ∨
        era_token u bc = "caBC")
    ∧ (∀ n, 1 ≤ n → n ≤ 12 → (pad2 n).length = 2) := by
  have hcal : (if u then "ca" ++ (if bc then "BC" else "AD")
      else (if bc then "BC" else "AD")) = era_token u bc := by
    cases u <;> cases bc <;> rfl
  have hms : str_truthy (some mname) = true := by
    unfold str_truthy
    simpa using hm
  have hds : day_truthy (some dd) = true := by
    unfold day_truthy
    simpa using hd
  refine ⟨?_, ?_, ?_, rfl, rfl, rfl, rfl, rfl, rfl, rfl, rfl, rfl, rfl, rfl, rfl, rfl,
    ?_, ?_⟩
  · simp only [format_date, hms, hds, if_pos rfl, Option.getD_some,
      List.singleton_append, join_dash]
    rw [hcal]
  · simp only [format_date, hms, day_truthy, if_pos rfl, Option.getD_some,
      List.singleton_append, join_dash, if_neg (by simp : ¬(false = true)),
      List.append_nil]
    rw [hcal]
  · simp only [format_date, str_truthy, if_neg (by simp : ¬(false = true)),
      List.append_nil, join_dash]
    rw [hcal]
  · cases u <;> cases bc <;> simp [era_token]
  · intro n h1 h2
    interval_cases n <;> rfl

/-- Witness for C4 at a concrete graph and person. -/
theorem C4_witness :
    (w_graph.persons "A").child_family = some "FA"
    ∧ count_ancestor_generations w_graph 3 "A" =
        max (-1) (((w_graph.families "FA").parents.map
          (fun q => count_ancestor_generations w_graph 2 q)).foldr max (-1)) + 1 :=
  ⟨by decide, (C4_generation_counters w_graph 2 "A").2.2.1 "FA" (by decide)⟩

/-- Witness for C2 on the slack-transfer branch. -/
theorem C2_witness :
    (4 : Int) > 3 ∧ (1 : Int) ≤ 3 ∧ (0 : Int) < 3 - 1
    ∧ adjust_limits 4 1 3 3 = (3 + (3 - 1), 3) :=
  ⟨by decide, by decide, by decide,
    (C2_dynamic_limit_rebalancing 4 1 3 3).2.1 (by decide) (by decide) (by decide)⟩

/-- Witness for C8 at concrete counts. -/
theorem C8_witness :
    (0 : Int) ≤ 0 ∧ (0 : Int) ≤ 1 ∧ (1 : Int) < 3
    ∧ ((0 : Int) > -1
        ∧ adjust_limits 0 1 (-1) 3 = ((3 - 1) - 1, 3)
        ∧ (0 : Int) ≤ (3 - 1) - 1) :=
  ⟨by decide, by decide, by decide,
    C8_rebalancing_caps_unlimited 0 1 3 (by decide) (by decide) (by decide)⟩

/-- Witness for C7 at a concrete full date. -/
theorem C7_witness :
    ("JAN" : String) ≠ "" ∧ (1 : Nat) ≠ 0
    ∧ format_date ⟨1900, some "JAN", some 1, false⟩ false =
        "(" ++ era_token false false ++ ")" ++
          (toString (1900 : Int) ++ "-" ++ (pad2 (month_number "JAN") ++ "-" ++ pad2 1)) :=
  ⟨by decide, by decide,
    (C7_date_formatter "JAN" 1 1900 false false ⟨1900, none, none, false⟩
      ⟨1900, none, none, false⟩ ⟨1900, none, none, false⟩ "a" "b" "c"
      (by decide) (by decide)).1⟩

/-- Witness for C9 at a concrete record. -/
theorem C9_witness :
    (⟨"@I9@", [], some ⟨some (.phrase "x"), none⟩, none, none, none⟩ : IndiRecord).birt =
        some ⟨some (.phrase "x"), none⟩
    ∧ (⟨"F9", [], [], ⟨some (.phrase "x"), none⟩⟩ : Family).marriage =
        ⟨some (.phrase "x"), none⟩
    ∧ ("birth-", lb ++ rb) ∈
        (Person.from_record
          ⟨"@I9@", [], some ⟨some (.phrase "x"), none⟩, none, none, none⟩).gtr_fields :=
  ⟨rfl, rfl,
    (C9_phrase_only_event "x" ⟨"@I9@", [], some ⟨some (.phrase "x"), none⟩, none, none, none⟩
      ⟨"F9", [], [], ⟨some (.phrase "x"), none⟩⟩ rfl rfl).2.2.1⟩

/-- Witness for C10 at concrete identifiers and a concrete family record. -/
theorem C10_witness :
    strip_at "@I1@" = strip_at "I1"
    ∧ process_fam ([], []) ⟨"@F1@", none, none, [], none⟩ =
        .ok ([], [("F1", ⟨"F1", [], [], ⟨none, none⟩⟩)])
    ∧ focal_lookup [] "@I1@" = focal_lookup [] "I1"
    ∧ ∃ fam,
        dict_get ([("F1", (⟨"F1", [], [], ⟨none, none⟩⟩ : Family))]) (strip_at "@F1@") =
          some fam ∧ fam.id = strip_at "@F1@" := by
  have h := C10_at_stripping ⟨"@I0@", [], none, none, none, none⟩ [] "@I1@" "I1"
    (by decide) ([], []) ⟨"@F1@", none, none, [], none⟩
    ([], [("F1", ⟨"F1", [], [], ⟨none, none⟩⟩)]) rfl
  exact ⟨by decide, rfl, h.2.2.1, h.2.2.2.2.2⟩

/-- Witness for the amended C6 at a concrete record with an empty name. -/
theorem C6_amended_witness :
    select_name ([(none, ("", ""))]) = some ("", "")
    ∧ ("A" : String) ≠ "" ∧ ("B" : String) ≠ ""
    ∧ ("name", name_value ("", "")) ∈
        (Person.from_record ⟨"@I6@", [(none, ("", ""))], none, none, none, none⟩).gtr_fields :=
  ⟨by decide, by decide, by decide,
    (C6_amended ⟨"@I6@", [(none, ("", ""))], none, none, none, none⟩ ("", "") "A" "B"
      (by decide) (by decide) (by decide)).1⟩

/-- Witness for the amended C3 on the two-generation witness graph. -/
theorem C3_amended_witness :
    "A" ∈ (w_graph.families "FA").children
    ∧ "B" ∈ (w_graph.families "FA").parents
    ∧ (w_graph.persons "A").id ≠ (w_graph.persons "C").id
    ∧ (w_graph.persons "B").id ≠ (w_graph.persons "C").id
    ∧ "A" ∈ sibling_children w_graph "FA" "C" :=
  ⟨by decide, by decide, by decide, by decide,
    (C3_amended w_graph "FA" "C" "A" "B" (by decide) (by decide) (by decide)
      (by decide)).2.2.1⟩

lemma resolve_refs_eq (persons : List (String × Person)) :
    ∀ (l res : List String), resolve_refs persons l = .ok res → res = l.map strip_at := by
  intro l
  induction l with
  | nil =>
    intro res h
    cases h
    rfl
  | cons x xs ih =>
    intro res h
    unfold resolve_refs resolve_xref at h
    simp only [bind, Except.bind] at h
    cases hg : dict_get persons (strip_at x) with
    | none => rw [hg] at h; exact Except.noConfusion h
    | some p =>
      rw [hg] at h
      simp only [] at h
      cases hr : resolve_refs persons xs with
      | error e => rw [hr] at h; exact Except.noConfusion h
      | ok ys =>
        rw [hr] at h
        simp only [pure, Except.pure, Except.ok.injEq] at h
        rw [← h, List.map_cons, ih ys hr]

lemma link_children_spec (famId : String) :
    ∀ (cids : List String) (d d' : List (String × Person)),
      link_children famId d cids = .ok d' →
      ∀ cid,
        (has_cf d cid = true → cid ∉ cids ∧ has_cf d' cid = true)
        ∧ (cid ∈ cids → has_cf d' cid = true)
        ∧ cids.count cid ≤ 1 := by
  intro cids
  induction cids with
  | nil =>
    intro d d' h cid
    cases h
    exact ⟨fun hc => ⟨List.not_mem_nil _, hc⟩,
      fun hm => absurd hm (List.not_mem_nil _), by simp⟩
  | cons c cs ih =>
    intro d d' h cid
    unfold link_children at h
    cases hg : dict_get d c with
    | none => rw [hg] at h; exact Except.noConfusion h
    | some p =>
      rw [hg] at h
      simp only [] at h
      cases hpcf : p.child_family with
      | some x => rw [hpcf] at h; exact Except.noConfusion h
      | none =>
        rw [hpcf] at h
        simp only [] at h
        have hcd : has_cf d c = false := by
          simp only [has_cf, hg, hpcf, Option.isSome_none]
        have h1 : has_cf (dict_set d c { p with child_family := some famId }) c = true := by
          simp only [has_cf, dict_get_set_self, Option.isSome_some]
        have hne : ∀ cid2, cid2 ≠ c →
            has_cf (dict_set d c { p with child_family := some famId }) cid2 =
              has_cf d cid2 := by
          intro cid2 hne2
          unfold has_cf
          rw [dict_get_set_ne d c cid2 _ hne2]
        have ihh := ih (dict_set d c { p with child_family := some famId }) d' h
        refine ⟨?_, ?_, ?_⟩
        · intro hc
          have hcne : cid ≠ c := by
            intro he
            rw [he, hcd] at hc
            exact Bool.noConfusion hc
          have hd1 : has_cf (dict_set d c { p with child_family := some famId }) cid =
              true := by rw [hne cid hcne, hc]
          have := (ihh cid).1 hd1
          exact ⟨by
            intro hmem
            rcases List.mem_cons.1 hmem with he | hin
            · exact hcne he
            · exact this.1 hin, this.2⟩
        · intro hmem
          rcases List.mem_cons.1 hmem with he | hin
          · subst he
            exact ((ihh cid).1 h1).2
          · exact (ihh cid).2.1 hin
        · rw [List.count_cons]
          by_cases he : c == cid
          · have hec : c = cid := by rwa [beq_iff_eq] at he
            subst hec
            have hnotin : c ∉ cs := ((ihh c).1 h1).1
            rw [if_pos he, List.count_eq_zero.2 hnotin]
          · rw [if_neg he]
            have := (ihh cid).2.2
            omega

lemma parents_fold_has_cf (famId : String) (pids : List String) :
    ∀ (d : List (String × Person)) (cid : String),
      has_cf (pids.foldl
        (fun d pid =>
          match dict_get d pid with
          | some p => dict_set d pid { p with parent_families := p.parent_families ++ [famId] }
          | none => d)
        d) cid = has_cf d cid := by
  induction pids with
  | nil => intro d cid; rfl
  | cons pid t ih =>
    intro d cid
    rw [List.foldl_cons, ih]
    cases hg : dict_get d pid with
    | none => rfl
    | some p =>
      unfold has_cf
      by_cases hc : cid = pid
      · subst hc
        rw [dict_get_set_self, hg]
      · rw [dict_get_set_ne d pid cid _ hc]

lemma process_fam_spec (st st' : List (String × Person) × List (String × Family))
    (f : FamRecord) (h : process_fam st f = .ok st') :
    ∀ cid,
      (has_cf st.1 cid = true →
        (f.chil.map strip_at).count cid = 0 ∧ has_cf st'.1 cid = true)
      ∧ (cid ∈ f.chil.map strip_at → has_cf st'.1 cid = true)
      ∧ (f.chil.map strip_at).count cid ≤ 1 := by
  unfold process_fam at h
  simp only [bind, Except.bind] at h
  cases hp : resolve_refs st.1 ([f.husb, f.wife].filterMap id) with
  | error e => rw [hp] at h; exact Except.noConfusion h
  | ok parents =>
    rw [hp] at h
    simp only [] at h
    cases hc : resolve_refs st.1 f.chil with
    | error e => rw [hc] at h; exact Except.noConfusion h
    | ok children =>
      have hch : children = f.chil.map strip_at := resolve_refs_eq st.1 f.chil children hc
      rw [hc] at h
      simp only [] at h
      cases hl : link_children (strip_at f.xref_id)
          (parents.foldl
            (fun d pid =>
              match dict_get d pid with
              | some p =>
                dict_set d pid
                  { p with parent_families := p.parent_families ++ [strip_at f.xref_id] }
              | none => d)
            st.1)
          children with
      | error e => rw [hl] at h; exact Except.noConfusion h
      | ok persons2 =>
        rw [hl] at h
        simp only [pure, Except.pure, Except.ok.injEq] at h
        intro cid
        have hfold := parents_fold_has_cf (strip_at f.xref_id) parents st.1 cid
        have hspec := link_children_spec (strip_at f.xref_id) children _ persons2 hl cid
        have hst : st'.1 = persons2 := by rw [← h]
        rw [hst, ← hch]
        refine ⟨?_, fun hm => (hspec.2.1 hm), hspec.2.2⟩
        intro hcf
        have hfc : has_cf
            (parents.foldl
              (fun d pid =>
                match dict_get d pid with
                | some p =>
                  dict_set d pid
                    { p with parent_families := p.parent_families ++ [strip_at f.xref_id] }
                | none => d)
              st.1) cid = true := by rw [hfold, hcf]
        have := hspec.1 hfc
        exact ⟨List.count_eq_zero.2 this.1, this.2⟩

lemma pass1_no_cf (indis : List IndiRecord) :
    ∀ (d : List (String × Person)), (∀ cid, has_cf d cid = false) →
      ∀ cid,
        has_cf (indis.foldl
          (fun d r => let p := Person.from_record r; dict_set d p.id p) d) cid = false := by
  induction indis with
  | nil => intro d hd cid; exact hd cid
  | cons r t ih =>
    intro d hd cid
    rw [List.foldl_cons]
    apply ih
    intro cid2
    unfold has_cf
    by_cases hc : cid2 = (Person.from_record r).id
    · rw [hc]
      rw [dict_get_set_self]
      rfl
    · rw [dict_get_set_ne _ _ _ _ hc]
      have := hd cid2
      unfold has_cf at this
      exact this

lemma process_fams_spec :
    ∀ (fams : List FamRecord)
      (st st' : List (String × Person) × List (String × Family)),
      process_fams st fams = .ok st' →
      ∀ cid, chil_count fams cid + (if has_cf st.1 cid = true then 1 else 0) ≤ 1 := by
  intro fams
  induction fams with
  | nil =>
    intro st st' h cid
    have h0 : chil_count [] cid = 0 := rfl
    rw [h0]
    by_cases hc : has_cf st.1 cid = true
    · rw [if_pos hc]
    · rw [if_neg hc]
      omega
  | cons f fs ih =>
    intro st st' h cid
    unfold process_fams at h
    simp only [bind, Except.bind] at h
    cases hp : process_fam st f with
    | error e => rw [hp] at h; exact Except.noConfusion h
    | ok st1 =>
      rw [hp] at h
      simp only [] at h
      have hstep := process_fam_spec st st1 f hp cid
      have hrest := ih st1 st' h cid
      have hcount : chil_count (f :: fs) cid =
          (f.chil.map strip_at).count cid + chil_count fs cid := by
        unfold chil_count
        rw [List.flatMap_cons, List.count_append]
      rw [hcount]
      by_cases hc : has_cf st.1 cid = true
      · have hA := hstep.1 hc
        rw [if_pos hA.2] at hrest
        rw [hA.1, if_pos hc]
        omega
      · rw [if_neg hc]
        by_cases h0 : (f.chil.map strip_at).count cid = 0
        · rw [h0]
          have : chil_count fs cid ≤ 1 := by
            by_cases hs : has_cf st1.1 cid = true
            · rw [if_pos hs] at hrest; omega
            · rw [if_neg hs] at hrest; omega
          omega
        · have hmem : cid ∈ f.chil.map strip_at := by
            by_contra hnm
            exact h0 (List.count_eq_zero.2 hnm)
          have hs1 : has_cf st1.1 cid = true := hstep.2.1 hmem
          rw [if_pos hs1] at hrest
          have hle := hstep.2.2
          omega

/-- C5: during pass 2, a child whose `child_family` is already set makes
loading fail (the assert in the child-linking loop), so a successful
load implies every stripped child id occurs at most once across all
`CHIL` lists — duplicate child-family membership is fatal, surfaced in
the linking loop, and an existing link is never overwritten. -/
theorem C5_duplicate_child_family (indis : List IndiRecord) (fams : List FamRecord)
    (h : (load_gedcom indis fams).isOk = true)
    (d : List (String × Person)) (famId c : String) (cids : List String)
    (hcf : has_cf d c = true) (hmem : c ∈ cids) :
    (∀ cid, chil_count fams cid ≤ 1)
    ∧ (∀ r, link_children famId d cids ≠ .ok r) := by
  constructor
  · intro cid
    cases hres : load_gedcom indis fams with
    | error e => rw [hres] at h; exact Bool.noConfusion h
    | ok res =>
      unfold load_gedcom at hres
      have hspec := process_fams_spec fams _ res hres cid
      have hinit : has_cf (indis.foldl
          (fun d r => let p := Person.from_record r; dict_set d p.id p) []) cid = false :=
        pass1_no_cf indis [] (fun _ => rfl) cid
      rw [if_neg (by rw [hinit]; exact Bool.noConfusion)] at hspec
      omega
  · intro r hok
    exact ((link_children_spec famId cids d r hok c).1 hcf).1 hmem

/-- Witness for C5 on concrete records: a successful load bounding the
child counts, and a direct linking failure for an already-linked child. -/
theorem C5_witness :
    (load_gedcom w_indis w_fams).isOk = true
    ∧ has_cf [("c", ⟨"c", [], [], some "F0"⟩)] "c" = true
    ∧ "c" ∈ ["c"]
    ∧ chil_count w_fams "I2" ≤ 1
    ∧ link_children "F1" [("c", ⟨"c", [], [], some "F0"⟩)] ["c"] ≠ .ok [] := by
  have h := C5_duplicate_child_family w_indis w_fams rfl
    [("c", ⟨"c", [], [], some "F0"⟩)] "F1" "c" ["c"] (by decide) (by decide)
  exact ⟨rfl, by decide, by decide, h.1 "I2", h.2 []⟩

lemma nat_foldr_max_min {α : Type} (k : Nat) (f : α → Nat) (l : List α) :
    (l.map (fun a => min k (f a))).foldr max 0 = min k ((l.map f).foldr max 0) := by
  induction l with
  | nil => simp
  | cons a u ih =>
    simp only [List.map_cons, List.foldr_cons, ih]
    rw [Nat.min_max_distrib_left]

lemma mem_le_foldr_max {α : Type} (f : α → Nat) (l : List α) (a : α) (h : a ∈ l) :
    f a ≤ (l.map f).foldr max 0 := by
  induction l with
  | nil => exact absurd h (List.not_mem_nil a)
  | cons x u ih =>
    simp only [List.map_cons, List.foldr_cons]
    rcases List.mem_cons.1 h with he | hin
    · rw [he]
      exact le_max_left _ _
    · exact le_trans (ih hin) (le_max_right _ _)

lemma dec_budget_nonneg (B : Int) (h : 1 ≤ B) : dec_budget B = B - 1 := by
  unfold dec_budget
  omega

lemma child_depth_min (g : Graph) :
    ∀ (fuel : Nat) (p : String) (B : Int), 0 ≤ B →
      child_node_depth g fuel p B = min B.toNat (child_walk g fuel p) := by
  intro fuel
  induction fuel with
  | zero =>
    intro p B hB
    simp [child_node_depth, child_walk]
  | succ f ih =>
    intro p B hB
    simp only [child_node_depth, child_walk]
    cases hpf : get_parent_family g p with
    | none => simp
    | some famId =>
      simp only []
      by_cases hB0 : B = 0
      · rw [if_pos hB0, hB0]
        simp
      · rw [if_neg hB0]
        have hB1 : 1 ≤ B := by omega
        rw [dec_budget_nonneg B hB1]
        have hmap : ((g.families famId).children.map
            (fun c => child_node_depth g f c (B - 1) + 1)) =
            ((g.families famId).children.map
              (fun c => min B.toNat (child_walk g f c + 1))) := by
          apply List.map_congr_left
          intro c _
          rw [ih c (B - 1) (by omega)]
          have ht : (B - 1).toNat + 1 = B.toNat := by omega
          rw [← ht]
          exact (Nat.succ_min_succ _ _).symm
        rw [hmap]
        have := nat_foldr_max_min B.toNat (fun c => child_walk g f c + 1)
          (g.families famId).children
        exact this

lemma child_depth_unlimited (g : Graph) :
    ∀ (fuel : Nat) (p : String),
      child_node_depth g fuel p (-1) = child_walk g fuel p := by
  intro fuel
  induction fuel with
  | zero => intro p; rfl
  | succ f ih =>
    intro p
    simp only [child_node_depth, child_walk]
    cases hpf : get_parent_family g p with
    | none => rfl
    | some famId =>
      simp only []
      rw [if_neg (by omega : ¬(-1 : Int) = 0)]
      have hdec : dec_budget (-1) = -1 := by unfold dec_budget; omega
      rw [hdec]
      congr 1
      apply List.map_congr_left
      intro c _
      rw [ih c]

lemma anc_depth_min (g : Graph) :
    ∀ fuel : Nat,
      (∀ (p : String) (B : Int), 0 ≤ B →
        parent_body_depth g fuel p B = min B.toNat (anc_walk_body g fuel p))
      ∧ (∀ (q : String) (B : Int), 1 ≤ B →
        parent_node_depth g fuel q B = min (B - 1).toNat (anc_walk_node g fuel q)) := by
  intro fuel
  induction fuel with
  | zero =>
    refine ⟨?_, ?_⟩
    · intro p B hB
      simp [parent_body_depth, anc_walk_body]
    · intro q B hB
      simp [parent_node_depth, anc_walk_node]
  | succ f ih =>
    refine ⟨?_, ?_⟩
    · intro p B hB
      simp only [parent_body_depth, anc_walk_body]
      cases hcf : (g.persons p).child_family with
      | none => simp
      | some cfId =>
        simp only []
        by_cases hB0 : B = 0
        · rw [if_pos hB0, hB0]
          simp
        · rw [if_neg hB0]
          have hB1 : 1 ≤ B := by omega
          have hmap : ((g.families cfId).parents.map
              (fun q => parent_node_depth g f q B + 1)) =
              ((g.families cfId).parents.map
                (fun q => min B.toNat (anc_walk_node g f q + 1))) := by
            apply List.map_congr_left
            intro q _
            rw [ih.2 q B hB1]
            have ht : (B - 1).toNat + 1 = B.toNat := by omega
            rw [← ht]
            exact (Nat.succ_min_succ _ _).symm
          rw [hmap]
          exact nat_foldr_max_min B.toNat (fun q => anc_walk_node g f q + 1)
            (g.families cfId).parents
    · intro q B hB
      simp only [parent_node_depth, anc_walk_node]
      cases hcf : (g.persons q).child_family with
      | none => simp
      | some cfId =>
        simp only []
        rw [if_neg (by omega : ¬B = 0), dec_budget_nonneg B hB]
        exact ih.1 q (B - 1) (by omega)

lemma anc_depth_unlimited (g : Graph) :
    ∀ fuel : Nat,
      (∀ p : String, parent_body_depth g fuel p (-1) = anc_walk_body g fuel p)
      ∧ (∀ q : String, parent_node_depth g fuel q (-1) = anc_walk_node g fuel q) := by
  intro fuel
  induction fuel with
  | zero => exact ⟨fun p => rfl, fun q => rfl⟩
  | succ f ih =>
    have hdec : dec_budget (-1) = -1 := by unfold dec_budget; omega
    refine ⟨?_, ?_⟩
    · intro p
      simp only [parent_body_depth, anc_walk_body]
      cases hcf : (g.persons p).child_family with
      | none => rfl
      | some cfId =>
        simp only []
        rw [if_neg (by omega : ¬(-1 : Int) = 0)]
        congr 1
        apply List.map_congr_left
        intro q _
        rw [ih.2 q]
    · intro q
      simp only [parent_node_depth, anc_walk_node]
      cases hcf : (g.persons q).child_family with
      | none => rfl
      | some cfId =>
        simp only []
        rw [if_neg (by omega : ¬(-1 : Int) = 0), hdec]
        exact ih.1 q

lemma child_node_unlimited (g : Graph) :
    ∀ (fuel : Nat) (p : String) (B : Int),
      (child_walk g fuel p : Int) < B →
      child_node g fuel p B = child_node g fuel p (-1) := by
  intro fuel
  induction fuel with
  | zero => intro p B h; rfl
  | succ f ih =>
    intro p B h
    have hw : 0 ≤ (child_walk g (f + 1) p : Int) := Int.natCast_nonneg _
    have hB1 : 1 ≤ B := by omega
    simp only [child_node]
    cases hpf : get_parent_family g p with
    | none => rfl
    | some famId =>
      simp only []
      rw [if_neg (by omega : ¬B = 0), if_neg (by omega : ¬(-1 : Int) = 0)]
      have hdec : dec_budget (-1) = -1 := by unfold dec_budget; omega
      rw [dec_budget_nonneg B hB1, hdec]
      congr 3
      apply List.map_congr_left
      intro c hc
      apply ih
      have hin : child_walk g f c + 1 ≤ child_walk g (f + 1) p := by
        have := mem_le_foldr_max (fun c => child_walk g f c + 1)
          (g.families famId).children c hc
        simp only [child_walk, hpf]
        exact this
      have : (child_walk g f c : Int) + 1 ≤ (child_walk g (f + 1) p : Int) := by
        exact_mod_cast hin
      omega

/-- C1: the serializer's depth-limit semantics.  Budget 0 renders the
current node as a leaf (or an empty ancestor body) even when deeper data
exists; for a budget B ≥ 0 the number of generation crossings in each
direction is exactly `min B (traversed data depth)`, so a positive
budget N expands exactly N generations before forcing leaves; budget
`-1` is unlimited — the recursion depth equals the traversed data depth,
and the rendered output with any budget exceeding the data depth equals
the unlimited rendering; the decrement `max(-1, budget-1)` never drops
below `-1`; and `sandclock` hands the descendant budget only to the
descendant walk and the ancestor budget only to the ancestor body, so
the two budgets never interact. -/
theorem C1_depth_limit_semantics (g : Graph) (f : Nat) (p : String) (s t : Bool)
    (A D B b : Int) (hB : 0 ≤ B) :
    child_node g (f + 1) p 0 = (g.persons p).to_gtr "c" true
    ∧ parent_node g (f + 1) p s t 0 = (g.persons p).to_gtr "p" true
    ∧ parent_node_body g (f + 1) p s t 0 = ""
    ∧ child_node_depth g f p B = min B.toNat (child_walk g f p)
    ∧ parent_body_depth g f p B = min B.toNat (anc_walk_body g f p)
    ∧ child_node_depth g f p (-1) = child_walk g f p
    ∧ parent_body_depth g f p (-1) = anc_walk_body g f p
    ∧ ((child_walk g f p : Int) < B → child_node g f p B = child_node g f p (-1))
    ∧ (-1 : Int) ≤ dec_budget b
    ∧ sandclock g f p s t A D =
        "sandclock" ++ sandclock_options g p ++ lb ++ child_node g f p D ++
          parent_node_body g f p s t A ++ rb := by
  refine ⟨?_, ?_, ?_, child_depth_min g f p B hB, (anc_depth_min g f).1 p B hB,
    child_depth_unlimited g f p, (anc_depth_unlimited g f).1 p,
    child_node_unlimited g f p B, le_max_left _ _, rfl⟩
  · simp only [child_node]
    cases hpf : get_parent_family g p with
    | none => rfl
    | some famId =>
      simp
  · simp only [parent_node]
    cases hcf : (g.persons p).child_family with
    | none => rfl
    | some cfId =>
      simp
  · simp only [parent_node_body]
    cases hcf : (g.persons p).child_family with
    | none => rfl
    | some cfId =>
      simp

/-- Witness for C1 on the two-generation witness graph. -/
theorem C1_witness :
    (0 : Int) ≤ 2
    ∧ child_node_depth w_graph 3 "A" 2 = min (2 : Int).toNat (child_walk w_graph 3 "A")
    ∧ parent_body_depth w_graph 3 "A" (-1) = anc_walk_body w_graph 3 "A" :=
  ⟨by decide,
    (C1_depth_limit_semantics w_graph 3 "A" true true 1 2 2 0 (by decide)).2.2.2.1,
    (C1_depth_limit_semantics w_graph 3 "A" true true 1 2 2 0 (by decide)).2.2.2.2.2.2.1⟩
